import Mathlib

/-!
Shallow embedding of the Raspberry Pi mini-UART driver
(src/os/pi/src/uart.rs) and proofs of its specification claims.

Modelling conventions:
  - Volatile hardware register reads are modelled as traces: a function
    from the index of the read to the value obtained, since each read of
    a volatile register may yield a fresh value.
  - Busy-wait loops take a fuel argument; a result of none means the
    loop had not terminated within the given number of iterations.
  - Each call of the blocking transmit primitive is recorded as one
    element of an output byte list.
  - Machine integers (u8, u32, u64) are modelled as Nat; the only
    arithmetic the claims exercise (timeout in ms times 1000, bit masks)
    stays far below any wrap boundary, and masking is written explicitly
    where the source masks.
-/

namespace Uart

/-- Modelled from the spec: the volatile register capability (crate
`volatile`, not under src/) exposes a bit-mask test; a line-status flag
test checks that every bit of the mask is set in the value read.
Used with the single-bit masks DataReady (bit 0) and TxAvailable (bit 5). -/
def hasMask (v mask : Nat) : Bool := v &&& mask == mask

/-- Modelled from the spec: the volatile register capability exposes an
additive (set-bit) write, used on the shared enable-switch register:
the new value is the old value with the mask bits set, all other bits kept. -/
def orMask (v mask : Nat) : Nat := v ||| mask

/-- Bit value of the LsrStatus::DataReady flag (bit 0 of line-status). -/
def dataReadyMask : Nat := 1

/-- Bit value of the LsrStatus::TxAvailable flag (bit 5 of line-status). -/
def txAvailableMask : Nat := 1 <<< 5

/-- The main register block of the mini UART, one Nat per field, in the
fixed hardware order of struct Registers. Field values model the current
latched contents; polled fields (LSR, IO) are additionally modelled by
read traces where a claim is about repeated volatile reads. -/
structure Registers where
  io : Nat
  IER : Nat
  IIR : Nat
  LCR : Nat
  MCR : Nat
  LSR : Nat
  MSR : Nat
  SCRATCH : Nat
  CNTL : Nat
  STAT : Nat
  BAUD : Nat

/-- The driver handle (struct MiniUart): a reference to the register
block, modelled by its numeric address, and the nullable read timeout in
milliseconds. -/
structure MiniUart where
  registers : Nat
  timeout : Option Nat

/-- MiniUart::has_byte applied to one read of the line-status register:
tests the DataReady mask on the value read. It performs exactly one read
and is a pure function of that value (no side effects, no blocking). -/
def has_byte (lsrValue : Nat) : Bool := hasMask lsrValue dataReadyMask

/-- Loop body of MiniUart::write_byte: iteration i reads line-status
value lsr i; if the TxAvailable flag is set the byte is written to the
IO register (returned together with the number i of failed checks that
preceded the write), otherwise the loop spins. -/
def writeByteLoop (lsr : Nat → Nat) (byte : Nat) : Nat → Nat → Option (Nat × Nat)
  | 0, _ => none
  | fuel + 1, i =>
    if hasMask (lsr i) txAvailableMask then some (byte, i)
    else writeByteLoop lsr byte fuel (i + 1)

/-- MiniUart::write_byte: spins on the TxAvailable flag of line-status,
then writes the byte (as u32, value unchanged) into the IO register. -/
def write_byte (lsr : Nat → Nat) (byte : Nat) (fuel : Nat) : Option (Nat × Nat) :=
  writeByteLoop lsr byte fuel 0

/-- Loop body of MiniUart::read_byte: iteration i evaluates has_byte on
line-status value lsr i; once it holds, the byte is the IO register
value masked to its low 8 bits, returned with the number i of failed
polls that preceded it. -/
def readByteLoop (lsr : Nat → Nat) (ioValue : Nat) : Nat → Nat → Option (Nat × Nat)
  | 0, _ => none
  | fuel + 1, i =>
    if has_byte (lsr i) then some (ioValue &&& 0xFF, i)
    else readByteLoop lsr ioValue fuel (i + 1)

/-- MiniUart::read_byte: spins on has_byte with no timeout applied, then
reads and returns the low 8 bits of the IO register. -/
def read_byte (lsr : Nat → Nat) (ioValue : Nat) (fuel : Nat) : Option (Nat × Nat) :=
  readByteLoop lsr ioValue fuel 0

/-- Loop body of MiniUart::wait_for_byte. Iteration i first evaluates
has_byte on line-status value lsr i; if it holds the loop exits with
Ok. Otherwise, only when a timeout duration d (milliseconds) is
configured, the monotonic clock is read (value clock i, microseconds)
and compared strictly against start + d * 1000; strictly greater means
Err (timed out). Modelled from the spec where the clock is concerned:
the external monotonic time source (timer::current_time, not under
src/) yields microseconds since boot; its successive in-loop readings
are the trace clock, and start is the value of the single reading taken
at entry. -/
def waitLoop (timeout : Option Nat) (start : Nat) (lsr : Nat → Nat)
    (clock : Nat → Nat) : Nat → Nat → Option (Except Unit Unit)
  | 0, _ => none
  | fuel + 1, i =>
    if has_byte (lsr i) then some (Except.ok ())
    else
      match timeout with
      | some d =>
        if clock i > start + d * 1000 then some (Except.error ())
        else waitLoop timeout start lsr clock fuel (i + 1)
      | none => waitLoop timeout start lsr clock fuel (i + 1)

/-- MiniUart::wait_for_byte: records start from the monotonic source,
then runs the polling loop from iteration 0. -/
def wait_for_byte (timeout : Option Nat) (start : Nat) (lsr : Nat → Nat)
    (clock : Nat → Nat) (fuel : Nat) : Option (Except Unit Unit) :=
  waitLoop timeout start lsr clock fuel 0

/-- Per-byte output of the fmt::Write::write_str loop body: a line-feed
byte (10) is preceded by one carriage-return byte (13) emitted through
write_byte; every byte is then emitted through write_byte itself. -/
def writeStrBytes : List Nat → List Nat
  | [] => []
  | b :: rest => (if b == 10 then [13] else []) ++ b :: writeStrBytes rest

/-- fmt::Write::write_str for MiniUart: iterates over the input bytes,
emitting the writeStrBytes sequence through the transmit primitive, and
always returns Ok. -/
def write_str (s : List Nat) : List Nat × Except Unit Unit :=
  (writeStrBytes s, Except.ok ())

/-- Stated from the spec for refinement: the input with one
carriage-return byte inserted immediately before every line-feed byte,
all other bytes unchanged and in order. -/
def specNormalizeLF (s : List Nat) : List Nat :=
  s.flatMap fun b => if b = 10 then [13, 10] else [b]

/-- Error kinds of the std::io layer that the driver can produce:
io::Read::read only ever constructs io::ErrorKind::TimedOut. -/
inductive IOError where
  | timedOut
deriving DecidableEq, Repr

/-- Drain loop of io::Read::read for MiniUart. The hardware receive side
is modelled by fifo, the list of bytes the receive primitive would
deliver in order, with has_byte true exactly while it is non-empty (the
data-ready flag is set while the hardware FIFO holds a byte). Each
iteration first checks has_byte, then that the write index i is below
the buffer length; if both hold, read_byte consumes the next byte into
slot i (List.set, in place). Returns the buffer and the count written. -/
def drainLoop : List Nat → List Nat → Nat → List Nat × Nat
  | [], buf, i => (buf, i)
  | b :: rest, buf, i =>
    if i < buf.length then drainLoop rest (buf.set i b) (i + 1)
    else (buf, i)

/-- io::Read::read for MiniUart: calls wait_for_byte once (its outcome
is waitResult); on Err the read fails with a TimedOut error, otherwise
it drains currently-ready bytes into the caller's buffer starting at
index 0 and returns the updated buffer with the count written. -/
def read (waitResult : Except Unit Unit) (fifo : List Nat)
    (buf : List Nat) : Except IOError (List Nat × Nat) :=
  match waitResult with
  | Except.error () => Except.error IOError.timedOut
  | Except.ok () => Except.ok (drainLoop fifo buf 0)

/-- Transmit calls performed by the loop of io::Write::write: one
write_byte call per byte of the caller's buffer, in order. -/
def writeBufBytes : List Nat → List Nat
  | [] => []
  | b :: rest => b :: writeBufBytes rest

/-- io::Write::write for MiniUart: emits every byte of the buffer
through the transmit primitive, then returns Ok with the full buffer
length. -/
def write (buf : List Nat) : List Nat × Except IOError Nat :=
  (writeBufBytes buf, Except.ok buf.length)

/-- io::Write::flush for MiniUart: performs no hardware access (empty
transmit/event list) and returns Ok. -/
def flush : List Nat × Except IOError Unit :=
  ([], Except.ok ())

/-- Events of the initialization sequence, in the order the hardware is
touched: an additive (or-mask) write to the shared AUX_ENABLES switch
register, plain writes to LCR, BAUD and CNTL, and a GPIO pin switched
to an alternate function (the external GPIO collaborator; Function::Alt5
is encoded by its function number 5). -/
inductive InitEvent where
  | auxEnableOr (mask : Nat)
  | lcrWrite (v : Nat)
  | baudWrite (v : Nat)
  | gpioAlt (pin : Nat) (altFn : Nat)
  | cntlWrite (v : Nat)
deriving DecidableEq, Repr

/-- MiniUart::new: enables the mini UART in the shared AUX_ENABLES
register by or-ing in bit 0, takes the register block reference at
regsAddr (model of MU_REG_BASE), writes 0x3 to LCR (8-bit mode), 270 to
BAUD (~115200 baud), switches GPIO pins 14 and 15 to alternate function
5, writes 0x3 to CNTL (enable RX/TX), and returns the handle with no
timeout set. The result is the new AUX_ENABLES value, the final register
block, the handle, and the ordered list of hardware events. -/
def new (auxEnables : Nat) (regs : Registers) (regsAddr : Nat) :
    Nat × Registers × MiniUart × List InitEvent :=
  let aux1 := orMask auxEnables 1
  let regs1 := { regs with LCR := 0x3 }
  let regs2 := { regs1 with BAUD := 270 }
  let regs3 := { regs2 with CNTL := 0x3 }
  (aux1, regs3, { registers := regsAddr, timeout := none },
   [InitEvent.auxEnableOr 1, InitEvent.lcrWrite 0x3, InitEvent.baudWrite 270,
    InitEvent.gpioAlt 14 5, InitEvent.gpioAlt 15 5, InitEvent.cntlWrite 0x3])

/-- MiniUart::set_read_timeout: stores Some(milliseconds) in the timeout
field. The second component is the list of hardware events it performs:
none. -/
def set_read_timeout (u : MiniUart) (milliseconds : Nat) :
    MiniUart × List InitEvent :=
  ({ u with timeout := some milliseconds }, [])

/-- Arguments of the public operations available on an existing MiniUart
handle (every pub method and trait method of uart.rs other than the
constructor). -/
inductive UartOp where
  | setReadTimeout (ms : Nat)
  | writeByte (b : Nat)
  | hasByte
  | waitForByte
  | readByte
  | writeStr (s : List Nat)
  | ioRead (bufLen : Nat)
  | ioWrite (buf : List Nat)
  | ioFlush
deriving DecidableEq, Repr

/-- Effect of each public operation on the handle struct itself. In the
source, set_read_timeout assigns Some(ms) to self.timeout; every other
method only reads self.timeout and accesses the hardware through
self.registers, never assigning to either struct field (hardware
effects are modelled by the dedicated functions above). -/
def applyOp (u : MiniUart) : UartOp → MiniUart
  | UartOp.setReadTimeout ms => { u with timeout := some ms }
  | UartOp.writeByte _ => u
  | UartOp.hasByte => u
  | UartOp.waitForByte => u
  | UartOp.readByte => u
  | UartOp.writeStr _ => u
  | UartOp.ioRead _ => u
  | UartOp.ioWrite _ => u
  | UartOp.ioFlush => u

/-! Helper lemmas about the polling loops. -/

/-- The wait loop with a configured timeout reports Err only if some
polled iteration saw no byte ready and a clock value strictly beyond
the deadline. -/
theorem waitLoop_err_exceeds (d start : Nat) (lsr clock : Nat → Nat) :
    ∀ (fuel i : Nat),
      waitLoop (some d) start lsr clock fuel i = some (Except.error ()) →
      ∃ j, has_byte (lsr j) = false ∧ clock j > start + d * 1000 := by
  intro fuel
  induction fuel with
  | zero => intro i h; simp [waitLoop] at h
  | succ f ih =>
    intro i h
    rw [waitLoop] at h
    cases hb : has_byte (lsr i) with
    | true => simp [hb] at h
    | false =>
      simp only [hb, Bool.false_eq_true, if_false] at h
      by_cases hc : clock i > start + d * 1000
      · exact ⟨i, hb, hc⟩
      · simp only [hc, if_false] at h
        exact ih (i + 1) h

/-- The wait loop with a configured timeout reports Ok when readiness
becomes true at relative iteration m within fuel and no earlier clock
reading was strictly beyond the deadline. -/
theorem waitLoop_ok_of_ready (d start : Nat) (lsr clock : Nat → Nat) :
    ∀ (m fuel i : Nat), m < fuel → has_byte (lsr (i + m)) = true →
      (∀ j, j < m → clock (i + j) ≤ start + d * 1000) →
      waitLoop (some d) start lsr clock fuel i = some (Except.ok ()) := by
  intro m
  induction m with
  | zero =>
    intro fuel i hf hb _
    cases fuel with
    | zero => omega
    | succ f => rw [waitLoop]; simp at hb; simp [hb]
  | succ m ih =>
    intro fuel i hf hb hc
    cases fuel with
    | zero => omega
    | succ f =>
      rw [waitLoop]
      cases hb0 : has_byte (lsr i) with
      | true => simp [hb0]
      | false =>
        have hc0 : clock (i + 0) ≤ start + d * 1000 := hc 0 (by omega)
        simp only [hb0, Bool.false_eq_true, if_false]
        have hcle : ¬ clock i > start + d * 1000 := by
          simpa using hc0
        simp only [hcle, if_false]
        apply ih f (i + 1) (by omega)
        · have : i + 1 + m = i + (m + 1) := by omega
          rw [this]; exact hb
        · intro j hj
          have : i + 1 + j = i + (j + 1) := by omega
          rw [this]; exact hc (j + 1) (by omega)

/-- The wait loop with no timeout configured never reports Err. -/
theorem waitLoop_none_ne_err (start : Nat) (lsr clock : Nat → Nat) :
    ∀ (fuel i : Nat),
      waitLoop none start lsr clock fuel i ≠ some (Except.error ()) := by
  intro fuel
  induction fuel with
  | zero => intro i h; simp [waitLoop] at h
  | succ f ih =>
    intro i h
    rw [waitLoop] at h
    cases hb : has_byte (lsr i) with
    | true => simp [hb] at h
    | false =>
      simp only [hb, Bool.false_eq_true, if_false] at h
      exact ih (i + 1) h

/-- The wait loop with no timeout configured reports Ok when readiness
becomes true at relative iteration m within fuel. -/
theorem waitLoop_none_ok_of_ready (start : Nat) (lsr clock : Nat → Nat) :
    ∀ (m fuel i : Nat), m < fuel → has_byte (lsr (i + m)) = true →
      waitLoop none start lsr clock fuel i = some (Except.ok ()) := by
  intro m
  induction m with
  | zero =>
    intro fuel i hf hb
    cases fuel with
    | zero => omega
    | succ f => rw [waitLoop]; simp at hb; simp [hb]
  | succ m ih =>
    intro fuel i hf hb
    cases fuel with
    | zero => omega
    | succ f =>
      rw [waitLoop]
      cases hb0 : has_byte (lsr i) with
      | true => simp [hb0]
      | false =>
        simp only [hb0, Bool.false_eq_true, if_false]
        apply ih f (i + 1) (by omega)
        have : i + 1 + m = i + (m + 1) := by omega
        rw [this]; exact hb

/-- Characterization of a successful run of the write_byte spin loop:
the value written is the byte itself, the transmit flag held at the
final check, and failed at every earlier check from the starting
index on. -/
theorem writeByteLoop_spec (lsr : Nat → Nat) (byte : Nat) :
    ∀ (fuel i w n : Nat),
      writeByteLoop lsr byte fuel i = some (w, n) →
      w = byte ∧ i ≤ n ∧ hasMask (lsr n) txAvailableMask = true ∧
        ∀ j, i ≤ j → j < n → hasMask (lsr j) txAvailableMask = false := by
  intro fuel
  induction fuel with
  | zero => intro i w n h; simp [writeByteLoop] at h
  | succ f ih =>
    intro i w n h
    rw [writeByteLoop] at h
    cases hm : hasMask (lsr i) txAvailableMask with
    | true =>
      simp only [hm, if_true] at h
      obtain ⟨hw, hn⟩ := Prod.mk.injEq .. ▸ Option.some.injEq .. ▸ h
      subst hw; subst hn
      exact ⟨rfl, le_refl i, hm, fun j hij hji => absurd hij (by omega)⟩
    | false =>
      simp only [hm, Bool.false_eq_true, if_false] at h
      obtain ⟨hw, hin, hflag, hprev⟩ := ih (i + 1) w n h
      refine ⟨hw, by omega, hflag, fun j hij hji => ?_⟩
      rcases Nat.eq_or_lt_of_le hij with heq | hlt
      · subst heq; exact hm
      · exact hprev j (by omega) hji

/-- Closed form of the read drain loop: starting at index i (within the
buffer), it overwrites slots i, i+1, ... with the ready bytes while both
bytes and space remain, keeps every other slot, and returns i plus the
number of bytes consumed. -/
theorem drainLoop_eq (fifo : List Nat) :
    ∀ (buf : List Nat) (i : Nat), i ≤ buf.length →
      drainLoop fifo buf i =
        (buf.take i ++ fifo.take (buf.length - i) ++ buf.drop (i + fifo.length),
         i + min fifo.length (buf.length - i)) := by
  induction fifo with
  | nil =>
    intro buf i hi
    simp [drainLoop]
  | cons b rest ih =>
    intro buf i hi
    by_cases hlt : i < buf.length
    · rw [drainLoop, if_pos hlt, ih (buf.set i b) (i + 1) (by simpa using hlt)]
      have hset := List.set_eq_take_cons_drop b hlt
      have hlen : (buf.take i).length = i := by
        simp [Nat.min_eq_left (Nat.le_of_lt hlt)]
      have h1 : (buf.set i b).take (i + 1) = buf.take i ++ [b] := by
        rw [hset, show i + 1 = (buf.take i).length + 1 by rw [hlen],
          List.take_append]
        simp
      have h2 : (buf.set i b).drop (i + 1 + rest.length) =
          buf.drop (i + 1 + rest.length) := by
        rw [hset, show i + 1 + rest.length = (buf.take i).length + (1 + rest.length)
            by rw [hlen]; omega,
          List.drop_append, Nat.add_comm 1 rest.length, List.drop_succ_cons,
          List.drop_drop]
        congr 1
        omega
      have h3 : (b :: rest).take (buf.length - i) =
          b :: rest.take (buf.length - (i + 1)) := by
        rw [show buf.length - i = (buf.length - (i + 1)) + 1 by omega]
        rfl
      simp only [Prod.mk.injEq]
      constructor
      · rw [List.length_set, h1, h2, h3, List.length_cons,
          show i + (rest.length + 1) = i + 1 + rest.length by omega]
        simp [List.append_assoc]
      · rw [List.length_set, List.length_cons]
        omega
    · rw [drainLoop, if_neg hlt]
      have hie : i = buf.length := by omega
      subst hie
      simp [List.take_of_length_le, List.drop_eq_nil_of_le, Nat.le_add_right]

/-- The transmit sequence of the Text Adapter equals the input with a
carriage return inserted before every line feed. -/
theorem writeStrBytes_eq (s : List Nat) : writeStrBytes s = specNormalizeLF s := by
  induction s with
  | nil => rfl
  | cons b rest ih =>
    by_cases hb : b = 10 <;>
      simp [writeStrBytes, specNormalizeLF, hb, ih, List.flatMap_cons]

/-- The transmit sequence of the buffered write equals the buffer. -/
theorem writeBufBytes_eq (l : List Nat) : writeBufBytes l = l := by
  induction l with
  | nil => rfl
  | cons b rest ih => rw [writeBufBytes, ih]

/-! Claim theorems. -/

/-- Claim C1: with a configured timeout of d milliseconds, wait_for_byte
reports TimedOut only when some polled iteration saw no byte ready and a
monotonic-clock value strictly greater than start + d * 1000 (the
duration converted to the microsecond unit of the time source); in
particular, if every clock reading is at or below start + d * 1000 —
including a check made exactly at the deadline — the wait never reports
TimedOut; and it reports success when the readiness flag becomes true at
some poll within fuel with no earlier clock reading strictly beyond the
deadline. -/
theorem wait_for_byte_timeout_spec (d start : Nat) (lsr clock : Nat → Nat)
    (fuel : Nat) :
    (wait_for_byte (some d) start lsr clock fuel = some (Except.error ()) →
      ∃ j, has_byte (lsr j) = false ∧ clock j > start + d * 1000) ∧
    ((∀ j, clock j ≤ start + d * 1000) →
      wait_for_byte (some d) start lsr clock fuel ≠ some (Except.error ())) ∧
    (∀ m, m < fuel → has_byte (lsr m) = true →
      (∀ j, j < m → clock j ≤ start + d * 1000) →
      wait_for_byte (some d) start lsr clock fuel = some (Except.ok ())) := by
  refine ⟨fun h => waitLoop_err_exceeds d start lsr clock fuel 0 h, ?_, ?_⟩
  · intro hcl h
    obtain ⟨j, _, hj⟩ := waitLoop_err_exceeds d start lsr clock fuel 0 h
    have := hcl j
    omega
  · intro m hm hb hc
    exact waitLoop_ok_of_ready d start lsr clock m fuel 0 hm
      (by simpa using hb) (fun j hj => by simpa using hc j hj)

/-- Witness for claim C1: timeout 100 ms, byte ready at the third poll,
clock readings well below the 100000 microsecond deadline: success. -/
theorem wait_for_byte_timeout_spec_witness :
    wait_for_byte (some 100) 0 (fun i => if i == 2 then 1 else 0)
      (fun _ => 99999) 5 = some (Except.ok ()) :=
  (wait_for_byte_timeout_spec 100 0 (fun i => if i == 2 then 1 else 0)
    (fun _ => 99999) 5).2.2 2 (by decide) (by decide) (fun j _ => by decide)

/-- Claim C5: with no timeout configured, wait_for_byte never reports
TimedOut, for any behavior of the monotonic clock, and reports success
once the readiness flag becomes true at some poll within fuel. -/
theorem wait_for_byte_no_timeout_spec (start : Nat) (lsr clock : Nat → Nat)
    (fuel : Nat) :
    wait_for_byte none start lsr clock fuel ≠ some (Except.error ()) ∧
    (∀ m, m < fuel → has_byte (lsr m) = true →
      wait_for_byte none start lsr clock fuel = some (Except.ok ())) := by
  refine ⟨waitLoop_none_ne_err start lsr clock fuel 0, ?_⟩
  intro m hm hb
  exact waitLoop_none_ok_of_ready start lsr clock m fuel 0 hm (by simpa using hb)

/-- Witness for claim C5: no timeout, simulated clock far advanced, byte
ready at the second poll: success, not TimedOut. -/
theorem wait_for_byte_no_timeout_spec_witness :
    wait_for_byte none 0 (fun i => if 1 ≤ i then 1 else 0)
      (fun _ => 1000000000) 3 = some (Except.ok ()) :=
  (wait_for_byte_no_timeout_spec 0 (fun i => if 1 ≤ i then 1 else 0)
    (fun _ => 1000000000) 3).2 1 (by decide) (by decide)

/-- Claim C10: the readiness check is evaluated before the deadline
check on every iteration of wait_for_byte, so with any configured
timeout — including one whose deadline has already passed at entry — a
byte already ready at the first poll yields success, never TimedOut. -/
theorem wait_for_byte_ready_first_spec (t : Option Nat) (start : Nat)
    (lsr clock : Nat → Nat) (fuel : Nat) (h : has_byte (lsr 0) = true) :
    wait_for_byte t start lsr clock (fuel + 1) = some (Except.ok ()) := by
  rw [wait_for_byte, waitLoop.eq_def]
  simp [h]

/-- Witness for claim C10: timeout 0 ms, clock already one second past
the deadline at the first check, byte ready at entry: success. -/
theorem wait_for_byte_ready_first_spec_witness :
    wait_for_byte (some 0) 5 (fun _ => 1) (fun _ => 1000005) 1 =
      some (Except.ok ()) :=
  wait_for_byte_ready_first_spec (some 0) 5 (fun _ => 1) (fun _ => 1000005) 0
    (by decide)

/-- Claim C6: has_byte is the data-ready test of bit 0 on a single read
of line-status (a pure function of that one read value), and whenever
has_byte holds for the first poll, read_byte returns with zero failed
poll iterations — it consults no timeout — and yields the low 8 bits of
the data register. -/
theorem has_byte_read_byte_spec :
    (∀ v : Nat, has_byte v = v.testBit 0) ∧
    (∀ (lsr : Nat → Nat) (ioValue fuel : Nat),
      has_byte (lsr 0) = true →
      read_byte lsr ioValue (fuel + 1) = some (ioValue &&& 0xFF, 0)) := by
  constructor
  · intro v
    simp only [has_byte, hasMask, dataReadyMask, Nat.and_one_is_mod,
      Nat.testBit_zero]
    by_cases h : v % 2 = 1 <;> simp [h]
  · intro lsr ioValue fuel h
    rw [read_byte, readByteLoop]
    simp [h]

/-- Witness for claim C6: line-status reads 1 (data ready), data
register holds 0x1AB: read_byte returns 0xAB after zero failed polls. -/
theorem has_byte_read_byte_spec_witness :
    read_byte (fun _ => 1) 0x1AB 1 = some (0xAB, 0) :=
  has_byte_read_byte_spec.2 (fun _ => 1) 0x1AB 0 (by decide)

/-- Claim C7: whenever write_byte terminates it has written the byte
itself after a final check that saw the transmit-space flag (bit 5) set,
every earlier check having seen it clear; and on the trace where the
flag is clear for exactly 5 polls and set afterwards, write_byte fails 5
checks and writes the byte at the 6th. -/
theorem write_byte_spec :
    (∀ (lsr : Nat → Nat) (byte fuel w n : Nat),
      write_byte lsr byte fuel = some (w, n) →
      w = byte ∧ hasMask (lsr n) txAvailableMask = true ∧
        ∀ j, j < n → hasMask (lsr j) txAvailableMask = false) ∧
    (∀ byte : Nat,
      write_byte (fun i => if i < 5 then 0 else 32) byte 6 = some (byte, 5)) := by
  constructor
  · intro lsr byte fuel w n h
    obtain ⟨hw, _, hflag, hprev⟩ := writeByteLoop_spec lsr byte fuel 0 w n h
    exact ⟨hw, hflag, fun j hj => hprev j (Nat.zero_le j) hj⟩
  · intro byte
    rfl

/-- Witness for claim C7: the transmit flag is set at the first check,
so the byte 7 is written after zero failed checks. -/
theorem write_byte_spec_witness :
    hasMask 32 txAvailableMask = true :=
  (write_byte_spec.1 (fun _ => 32) 7 1 7 0 rfl).2.1

/-- Claim C2: write_str transmits exactly the input bytes in order with
one carriage return (13) emitted immediately before every line feed
(10), all other bytes one transmit call each, and always returns Ok; on
the input "hi\n" the transmitted sequence is [104, 105, 13, 10]. -/
theorem write_str_spec :
    (∀ s : List Nat, write_str s = (specNormalizeLF s, Except.ok ())) ∧
    write_str [104, 105, 10] = ([104, 105, 13, 10], Except.ok ()) := by
  constructor
  · intro s
    rw [write_str, writeStrBytes_eq]
  · rfl

/-- Claim C3: the buffered read fails with a TimedOut error exactly when
its single wait_for_byte call reports Err; otherwise it returns the
count actually written — the number of ready bytes, capped by the buffer
length — with the first count slots holding the ready bytes in order and
every slot beyond the count unchanged; in particular a 10-slot buffer
with 3 ready bytes yields count 3 and 7 untouched slots. -/
theorem read_spec :
    (∀ fifo buf : List Nat,
      read (Except.error ()) fifo buf = Except.error IOError.timedOut) ∧
    (∀ fifo buf : List Nat, ∃ out n,
      read (Except.ok ()) fifo buf = Except.ok (out, n) ∧
      n = min fifo.length buf.length ∧ n ≤ buf.length ∧
      out.length = buf.length ∧ out.take n = fifo.take n ∧
      out.drop n = buf.drop n) ∧
    read (Except.ok ()) [7, 8, 9] (List.replicate 10 0) =
      Except.ok ([7, 8, 9, 0, 0, 0, 0, 0, 0, 0], 3) := by
  refine ⟨fun _ _ => rfl, ?_, by rfl⟩
  intro fifo buf
  have hd := drainLoop_eq fifo buf 0 (Nat.zero_le _)
  simp only [List.take_zero, List.nil_append, Nat.zero_add, Nat.sub_zero] at hd
  have hlen1 : (fifo.take buf.length).length = min fifo.length buf.length := by
    rw [List.length_take, Nat.min_comm]
  refine ⟨fifo.take buf.length ++ buf.drop fifo.length,
    min fifo.length buf.length, ?_, rfl, Nat.min_le_right _ _, ?_, ?_, ?_⟩
  · show Except.ok (drainLoop fifo buf 0) = _
    rw [hd]
  · simp only [List.length_append, List.length_take, List.length_drop]
    omega
  · rw [List.take_append_of_le_length (le_of_eq hlen1.symm), List.take_take,
      Nat.min_eq_left (Nat.min_le_right _ _)]
  · rw [List.drop_left' hlen1]
    by_cases hf : fifo.length ≤ buf.length
    · rw [Nat.min_eq_left hf]
    · rw [Nat.min_eq_right (by omega), List.drop_eq_nil_of_le (by omega),
        List.drop_eq_nil_of_le (by omega)]

/-- Claim C8: the buffered write transmits exactly the bytes of the
caller's buffer, in order, one transmit call per byte, and returns Ok
with the full buffer length; flush performs no hardware access and
returns Ok. -/
theorem io_write_flush_spec :
    (∀ buf : List Nat, write buf = (buf, Except.ok buf.length)) ∧
    flush = ([], Except.ok ()) := by
  refine ⟨fun buf => ?_, rfl⟩
  rw [write, writeBufBytes_eq]

/-- Claim C4: initialization performs, in order, the additive set of
enable bit 0 in the shared switch register (preserving every other
bit), the write of 0x3 to line-control, 270 to the baud divisor, the
switch of GPIO pins 14 and 15 to alternate function 5, and the write of
0x3 to extended-control; the returned handle has no timeout set. -/
theorem new_init_spec (aux : Nat) (regs : Registers) (addr : Nat) :
    (new aux regs addr).2.2.2 =
      [InitEvent.auxEnableOr 1, InitEvent.lcrWrite 0x3,
       InitEvent.baudWrite 270, InitEvent.gpioAlt 14 5,
       InitEvent.gpioAlt 15 5, InitEvent.cntlWrite 0x3] ∧
    (new aux regs addr).1 = orMask aux 1 ∧
    (orMask aux 1).testBit 0 = true ∧
    (∀ j, j ≠ 0 → (orMask aux 1).testBit j = aux.testBit j) ∧
    (new aux regs addr).2.1.LCR = 0x3 ∧
    (new aux regs addr).2.1.BAUD = 270 ∧
    (new aux regs addr).2.1.CNTL = 0x3 ∧
    (new aux regs addr).2.2.1.timeout = none := by
  refine ⟨rfl, rfl, ?_, ?_, rfl, rfl, rfl, rfl⟩
  · simp [orMask, Nat.testBit_or, show Nat.testBit 1 0 = true from rfl]
  · intro j hj
    have h1 : Nat.testBit 1 j = false :=
      Nat.testBit_lt_two_pow (Nat.one_lt_two_pow hj)
    simp [orMask, Nat.testBit_or, h1]

/-- Witness for claim C4: enabling on prior switch value 10 leaves bit 3
as it was. -/
theorem new_init_spec_witness :
    (orMask 10 1).testBit 3 = (10 : Nat).testBit 3 :=
  (new_init_spec 10 ⟨0, 0, 0, 0, 0, 0, 0, 0, 0, 0, 0⟩ 0).2.2.2.1 3 (by decide)

/-- Claim C9: set_read_timeout stores Some(ms) in the timeout field,
leaves the register reference unchanged and touches no register; the
constructor yields a handle with timeout absent; and every public
operation keeps a present timeout present, so no public operation can
restore the absent (wait-forever) state once a timeout has been set. -/
theorem set_read_timeout_spec (u : MiniUart) (ms : Nat) (op : UartOp) :
    (set_read_timeout u ms).1.timeout = some ms ∧
    (set_read_timeout u ms).1.registers = u.registers ∧
    (set_read_timeout u ms).2 = [] ∧
    (∀ (aux : Nat) (regs : Registers) (addr : Nat),
      (new aux regs addr).2.2.1.timeout = none) ∧
    (u.timeout.isSome = true → (applyOp u op).timeout.isSome = true) := by
  refine ⟨rfl, rfl, rfl, fun _ _ _ => rfl, ?_⟩
  intro h
  cases op <;> simp [applyOp, h]

/-- Witness for claim C9: a handle with timeout 5 ms still has a present
timeout after the readiness-check operation. -/
theorem set_read_timeout_spec_witness :
    (applyOp ⟨0, some 5⟩ UartOp.hasByte).timeout.isSome = true :=
  (set_read_timeout_spec ⟨0, some 5⟩ 7 UartOp.hasByte).2.2.2.2 rfl

end Uart
